import Mathlib

/-!
Shallow embedding of `src/piper.py` (class `JenkinsPipeline`), a Jenkins
pipeline polling client.  Network interaction is modelled by explicit
environments: a GET environment `String → Response` mapping a URL to the
HTTP status and (optionally) a parsed JSON body, an optional parsed
pipeline-definition `Option PipelineData` standing for the outcome of the
definition GET, and a POST function `String → α` returning an uninterpreted
response.  Exceptions (JSON parse failures, `IndexError`, subscripting
`None`) are modelled by `Option`: `none` is a raised exception.  Operations
that perform I/O also return the number of network requests they issued.
-/

namespace JenkinsPipeline

/-- A job descriptor from the pipeline definition; the code only ever reads
its `url` field. -/
structure Job where
  url : String
  deriving DecidableEq

/-- A parsed last-build record; the code reads `timestamp` (converted with
`int`) and `result`. -/
structure Build where
  timestamp : Int
  result : String
  deriving DecidableEq

/-- An HTTP GET outcome: the status code and, when the body is valid JSON of
the expected shape, the parsed build record (`none` models a body whose
parsing would raise). -/
structure Response where
  status : Nat
  body : Option Build
  deriving DecidableEq

/-- The parsed pipeline-definition JSON object, as an association list of its
fields; the only field the code ever reads is the job list under the key
`jobs`, so field values are modelled as job lists.  The Python dict is falsy
exactly when this list is empty. -/
abbrev PipelineData := List (String × List Job)

/-- The mutable instance fields of `JenkinsPipeline` that the polling logic
reads and writes (`__init__`, piper.py lines 14-17); times are integers. -/
structure Engine where
  _pipeline : PipelineData
  _state : List Build
  state_last_updated : Int
  max_state_cache : Int
  deriving DecidableEq

/-- `__init__`: both caches start empty and the state timestamp lies in the
distant past (`datetime(1983,9,2)`, abstracted as the parameter `past`). -/
def initEngine (max_state_cache : Int) (past : Int) : Engine :=
  { _pipeline := [], _state := [], state_last_updated := past,
    max_state_cache := max_state_cache }

/-- `get_last_build_url` (piper.py line 37). -/
def get_last_build_url (job_url : String) : String :=
  job_url ++ "lastBuild/api/json"

/-- `get_job_build_url` (piper.py line 45). -/
def get_job_build_url (job_url : String) : String :=
  job_url ++ "build"

/-- The `pipeline` property (piper.py lines 62-74): fetch and parse the
definition when the cached dict is falsy (empty), else return the cache
with no I/O.  `defResp` is the parsed JSON of the definition GET (`none`:
the fetch or parse raises).  Returns the definition, the updated instance
and the number of GET requests issued. -/
def pipeline (e : Engine) (defResp : Option PipelineData) :
    Option (PipelineData × Engine × Nat) :=
  if e._pipeline.isEmpty then
    match defResp with
    | none => none
    | some d => some (d, { e with _pipeline := d }, 1)
  else
    some (e._pipeline, e, 0)

/-- The `jobs` property (piper.py lines 76-84): `pipeline_data.get('jobs', [])`,
degrading to the empty list when the key is absent. -/
def jobs (e : Engine) (defResp : Option PipelineData) :
    Option (List Job × Engine × Nat) :=
  match pipeline e defResp with
  | none => none
  | some (d, e1, n) => some ((d.lookup ("jobs")).getD [], e1, n)

/-- The `is_state_stale` property (piper.py lines 86-94): the cached state is
stale when it is empty (falsy) or strictly older than the TTL. -/
def is_state_stale (e : Engine) (now : Int) : Bool :=
  e._state.isEmpty || decide (now - e.state_last_updated > e.max_state_cache)

/-- The `last_job_time` computation of the loop body (piper.py lines 118-121):
the timestamp of the last accumulated record, or `0` on `IndexError` for an
empty accumulator. -/
def last_job_time (job_data : List Build) : Int :=
  match job_data.getLast? with
  | some b => b.timestamp
  | none => 0

/-- The state-collection loop of the `state` property (piper.py lines
108-126), one iteration per job: GET the job's last-build URL; break on a
status outside [200, 400); otherwise parse the body (`none` raises) and
append the record only if its timestamp is at least `last_job_time`.
Returns the accumulated records and the number of GET requests issued
(`none`: a parse raised). -/
def collectState (env : String → Response) :
    List Job → List Build → Option (List Build × Nat)
  | [], job_data => some (job_data, 0)
  | j :: js, job_data =>
    let response := env (get_last_build_url j.url)
    if 200 > response.status ∨ response.status ≥ 400 then
      some (job_data, 1)
    else
      match response.body with
      | none => none
      | some b =>
        match collectState env js
            (if b.timestamp ≥ last_job_time job_data then job_data ++ [b]
             else job_data) with
        | none => none
        | some (st, n) => some (st, n + 1)

/-- The `state` property (piper.py lines 96-131): return the cached state
when it is not stale (no I/O); otherwise rebuild it from scratch from the
job list via the collection loop, replace the cache wholesale and stamp the
time.  Returns the state, the updated instance and the number of GET
requests issued. -/
def state (e : Engine) (now : Int) (defResp : Option PipelineData)
    (env : String → Response) : Option (List Build × Engine × Nat) :=
  if is_state_stale e now = false then
    some (e._state, e, 0)
  else
    match jobs e defResp with
    | none => none
    | some (js, e1, n1) =>
      match collectState env js [] with
      | none => none
      | some (st, n2) =>
        some (st, { e1 with _state := st, state_last_updated := now }, n1 + n2)

/-- The `latest_step` property (piper.py lines 133-143): the last state entry,
or `None` on `IndexError`. -/
def latest_step (stateL : List Build) : Option Build :=
  stateL.getLast?

/-- The `is_complete` property (piper.py lines 145-157) as a function of the
job list and the state list it reads; `none` models the `IndexError` that
`state[-1]` raises when the lengths agree but the state is empty. -/
def is_complete (jobsL : List Job) (stateL : List Build) : Option Bool :=
  if stateL.length ≠ jobsL.length then some false
  else
    match stateL.getLast? with
    | none => none
    | some b => if b.result ≠ "SUCCESS" then some false else some true

/-- The `is_waiting_manual_trigger` property (piper.py lines 159-166):
Python's `and` short-circuits, so a complete pipeline yields `False` without
reading `latest_step`; when not complete, `latest_step['result']` raises
(`none`) if no step has run. -/
def is_waiting_manual_trigger (jobsL : List Job) (stateL : List Build) :
    Option Bool :=
  match is_complete jobsL stateL with
  | none => none
  | some true => some false
  | some false =>
    match latest_step stateL with
    | none => none
    | some b => some (decide (b.result = "SUCCESS"))

/-- The `next_step` property (piper.py lines 168-178): when not complete, the
job at index `len(state)`, with the `IndexError` turned into the `None`
sentinel; when complete the function falls through and returns `None`. -/
def next_step (jobsL : List Job) (stateL : List Build) : Option (Option Job) :=
  match is_complete jobsL stateL with
  | none => none
  | some true => some none
  | some false => some (jobsL.get? stateL.length)

/-- `build_job` (piper.py lines 180-187): POST to the job's build-trigger URL;
the response is returned uninterpreted. -/
def build_job {α : Type} (post : String → α) (job : Job) : α :=
  post (get_job_build_url job.url)

/-- `trigger_manual_step` (piper.py lines 198-207): build the next step only
when the pipeline is waiting on a manual trigger; otherwise fall through to
`None` with no POST.  An exception from the waiting check propagates, and
`build_job(None)` would subscript `None` and raise.  Returns the result
(`None` sentinel when nothing happened) and the number of POST requests. -/
def trigger_manual_step {α : Type} (post : String → α) (jobsL : List Job)
    (stateL : List Build) : Option (Option α × Nat) :=
  match is_waiting_manual_trigger jobsL stateL with
  | none => none
  | some false => some (none, 0)
  | some true =>
    match next_step jobsL stateL with
    | none => none
    | some none => none
    | some (some j) => some (some (build_job post j), 1)

/-! ### Basic lemmas about the collection loop -/

/-- The break condition of the collection loop (piper.py line 115): the
last-build GET for job `j` returned a status outside [200, 400). -/
abbrev stopStatus (env : String → Response) (j : Job) : Prop :=
  200 > (env (get_last_build_url j.url)).status ∨
    (env (get_last_build_url j.url)).status ≥ 400

theorem collectState_cons_stop (env : String → Response) (j : Job)
    (js : List Job) (acc : List Build) (hs : stopStatus env j) :
    collectState env (j :: js) acc = some (acc, 1) := by
  rw [collectState]
  simp only [if_pos hs]

theorem collectState_cons_go (env : String → Response) (j : Job)
    (js : List Job) (acc : List Build) (b : Build)
    (hs : ¬ stopStatus env j)
    (hb : (env (get_last_build_url j.url)).body = some b) :
    collectState env (j :: js) acc =
      (collectState env js
          (if b.timestamp ≥ last_job_time acc then acc ++ [b] else acc)).map
        fun p => (p.1, p.2 + 1) := by
  rw [collectState]
  simp only [if_neg hs, hb]
  cases collectState env js
      (if b.timestamp ≥ last_job_time acc then acc ++ [b] else acc) with
  | none => rfl
  | some p => cases p with | mk st n => rfl

theorem collectState_cons_raise (env : String → Response) (j : Job)
    (js : List Job) (acc : List Build)
    (hs : ¬ stopStatus env j)
    (hb : (env (get_last_build_url j.url)).body = none) :
    collectState env (j :: js) acc = none := by
  rw [collectState]
  simp only [if_neg hs, hb]

/-- Everything the loop appends comes from the job records, in job order:
the result extends the accumulator by a sublist of the fetched bodies. -/
theorem collectState_extends (env : String → Response) :
    ∀ (js : List Job) (acc st : List Build) (n : Nat),
      collectState env js acc = some (st, n) →
      ∃ t, st = acc ++ t ∧
        t.Sublist (js.filterMap fun j => (env (get_last_build_url j.url)).body) := by
  intro js
  induction js with
  | nil =>
    intro acc st n h
    simp [collectState] at h
    exact ⟨[], by simp [h.1], List.nil_sublist _⟩
  | cons j js ih =>
    intro acc st n h
    by_cases hs : stopStatus env j
    · rw [collectState_cons_stop env j js acc hs] at h
      simp at h
      exact ⟨[], by simp [h.1], List.nil_sublist _⟩
    · cases hb : (env (get_last_build_url j.url)).body with
      | none => rw [collectState_cons_raise env j js acc hs hb] at h; simp at h
      | some b =>
        rw [collectState_cons_go env j js acc b hs hb] at h
        cases hrec : collectState env js
            (if b.timestamp ≥ last_job_time acc then acc ++ [b] else acc) with
        | none => rw [hrec] at h; simp at h
        | some p =>
          obtain ⟨st', n'⟩ := p
          rw [hrec] at h
          simp at h
          obtain ⟨hst, -⟩ := h
          subst hst
          have hfm : List.filterMap (fun j => (env (get_last_build_url j.url)).body)
                (j :: js) =
              b :: List.filterMap (fun j => (env (get_last_build_url j.url)).body) js :=
            List.filterMap_cons_some hb
          rw [hfm]
          by_cases ht : b.timestamp ≥ last_job_time acc
          · rw [if_pos ht] at hrec
            obtain ⟨t, ht2, hsub⟩ := ih (acc ++ [b]) st' n' hrec
            refine ⟨b :: t, ?_, hsub.cons₂ b⟩
            rw [ht2, List.append_assoc]
            rfl
          · rw [if_neg ht] at hrec
            obtain ⟨t, ht2, hsub⟩ := ih acc st' n' hrec
            exact ⟨t, ht2, hsub.cons b⟩

/-- Appending a record no older than `last_job_time` keeps the accumulator
sorted by timestamp. -/
theorem chain_append_build (acc : List Build) (b : Build)
    (hc : acc.Chain' fun x y => x.timestamp ≤ y.timestamp)
    (hb : last_job_time acc ≤ b.timestamp) :
    (acc ++ [b]).Chain' fun x y => x.timestamp ≤ y.timestamp := by
  rw [List.chain'_append]
  refine ⟨hc, List.chain'_singleton b, ?_⟩
  intro x hx y hy
  simp at hy
  subst hy
  cases hgl : acc.getLast? with
  | none => rw [hgl] at hx; simp at hx
  | some a =>
    rw [hgl] at hx
    simp at hx
    subst hx
    simpa [last_job_time, hgl] using hb

/-- The collection loop preserves sortedness of the accumulator: starting
from a timestamp-sorted accumulator, the collected state is sorted. -/
theorem collectState_chain (env : String → Response) :
    ∀ (js : List Job) (acc st : List Build) (n : Nat),
      acc.Chain' (fun x y => x.timestamp ≤ y.timestamp) →
      collectState env js acc = some (st, n) →
      st.Chain' fun x y => x.timestamp ≤ y.timestamp := by
  intro js
  induction js with
  | nil =>
    intro acc st n hc h
    simp [collectState] at h
    rw [← h.1]
    exact hc
  | cons j js ih =>
    intro acc st n hc h
    by_cases hs : stopStatus env j
    · rw [collectState_cons_stop env j js acc hs] at h
      simp at h
      rw [← h.1]
      exact hc
    · cases hb : (env (get_last_build_url j.url)).body with
      | none => rw [collectState_cons_raise env j js acc hs hb] at h; simp at h
      | some b =>
        rw [collectState_cons_go env j js acc b hs hb] at h
        cases hrec : collectState env js
            (if b.timestamp ≥ last_job_time acc then acc ++ [b] else acc) with
        | none => rw [hrec] at h; simp at h
        | some p =>
          obtain ⟨st', n'⟩ := p
          rw [hrec] at h
          simp at h
          obtain ⟨hst, -⟩ := h
          subst hst
          by_cases ht : b.timestamp ≥ last_job_time acc
          · rw [if_pos ht] at hrec
            exact ih (acc ++ [b]) st' n' (chain_append_build acc b hc ht) hrec
          · rw [if_neg ht] at hrec
            exact ih acc st' n' hc hrec

/-- When the loop drops a record (its timestamp is older than the last
accumulated one) it continues with the remaining jobs and an unchanged
accumulator; only the request count grows. -/
theorem collectState_drop (env : String → Response) (j : Job) (js : List Job)
    (acc : List Build) (b : Build)
    (hs : ¬ stopStatus env j)
    (hb : (env (get_last_build_url j.url)).body = some b)
    (hlt : b.timestamp < last_job_time acc) :
    collectState env (j :: js) acc =
      (collectState env js acc).map fun p => (p.1, p.2 + 1) := by
  rw [collectState_cons_go env j js acc b hs hb, if_neg (not_le.mpr hlt)]

/-- When the first out-of-range status sits at index `i` and all earlier
jobs answer in range with parseable bodies, the loop stops there: it
returns the records of the first `i` jobs after `i + 1` requests, and no
exception is raised. -/
theorem collectState_firstBad (env : String → Response) :
    ∀ (i : Nat) (js : List Job) (acc : List Build) (ji : Job),
      js.get? i = some ji →
      stopStatus env ji →
      (∀ jk ∈ js.take i, ¬ stopStatus env jk ∧
        ((env (get_last_build_url jk.url)).body).isSome) →
      ∃ st, collectState env (js.take i) acc = some (st, i) ∧
            collectState env js acc = some (st, i + 1) := by
  intro i
  induction i with
  | zero =>
    intro js acc ji hget hstop _
    cases js with
    | nil => simp at hget
    | cons j js' =>
      simp at hget
      subst hget
      exact ⟨acc, by simp [collectState],
        collectState_cons_stop env j js' acc hstop⟩
  | succ i ih =>
    intro js acc ji hget hstop hgood
    cases js with
    | nil => simp at hget
    | cons j js' =>
      have h0 := hgood j (by rw [List.take_succ_cons]; exact List.mem_cons_self j _)
      obtain ⟨hs0, hb0⟩ := h0
      obtain ⟨b, hb⟩ := Option.isSome_iff_exists.mp hb0
      have hget' : js'.get? i = some ji := hget
      obtain ⟨st, h1, h2⟩ := ih js'
        (if b.timestamp ≥ last_job_time acc then acc ++ [b] else acc) ji hget'
        hstop
        (fun jk hk => hgood jk (by rw [List.take_succ_cons]; exact List.mem_cons_of_mem j hk))
      refine ⟨st, ?_, ?_⟩
      · rw [List.take_succ_cons,
          collectState_cons_go env j (js'.take i) acc b hs0 hb, h1]
        rfl
      · rw [collectState_cons_go env j js' acc b hs0 hb, h2]
        rfl

/-! ### Concrete scenarios used by counterexamples and witnesses -/

/-- Three jobs, as from a definition whose `jobs` field lists a, b, c. -/
def jsC : List Job := [⟨"a"⟩, ⟨"b"⟩, ⟨"c"⟩]

/-- All three jobs answer 200; the middle build is older than the first
(timestamps 10, 5, 20). -/
def envC : String → Response := fun u =>
  if u = get_last_build_url ("a") then ⟨200, some ⟨10, "SUCCESS"⟩⟩
  else if u = get_last_build_url ("b") then ⟨200, some ⟨5, "SUCCESS"⟩⟩
  else ⟨200, some ⟨20, "SUCCESS"⟩⟩

/-- The first job answers 200, the second 404; the third would be valid. -/
def envW : String → Response := fun u =>
  if u = get_last_build_url ("a") then ⟨200, some ⟨10, "SUCCESS"⟩⟩
  else if u = get_last_build_url ("b") then ⟨404, none⟩
  else ⟨200, some ⟨20, "SUCCESS"⟩⟩

/-- Every GET answers 404 with no parseable body. -/
def env404 : String → Response := fun _ => ⟨404, none⟩

/-- An instance with a cached three-job definition and an empty — hence
always stale — state cache. -/
def eC1 : Engine :=
  { _pipeline := [(("jobs"), jsC)], _state := [],
    state_last_updated := 0, max_state_cache := 10 }

/-- An instance with a cached one-job definition and an empty state cache. -/
def eC3 : Engine :=
  { _pipeline := [(("jobs"), [⟨"a"⟩])], _state := [],
    state_last_updated := 0, max_state_cache := 10 }

/-- A freshly constructed instance: both caches empty. -/
def e9 : Engine :=
  { _pipeline := [], _state := [], state_last_updated := 0,
    max_state_cache := 10 }

/-- The instance `eC1` after its state cache is rebuilt at time 0. -/
def eC1r : Engine :=
  { eC1 with _state := [⟨10, "SUCCESS"⟩, ⟨20, "SUCCESS"⟩] }

/-- The instance `eC3` with a one-entry state cache fetched at time 0. -/
def eC3s : Engine :=
  { eC3 with _state := [⟨5, "SUCCESS"⟩] }

/-- The instance `e9` after its definition cache holds a one-job pipeline. -/
def e9p : Engine :=
  { e9 with _pipeline := [(("jobs"), [⟨"a"⟩])] }

/-! ### C1: state versus the definition's job order -/

/-- C1 (counterexample): with jobs a, b, c all answering 200 and timestamps
10, 5, 20, the rebuild collects the records 10 and 20 in three requests —
the middle record is dropped by the timestamp guard and the loop continues —
so the state entry at index 1 is the last-build record of job c, not of job
b: the state is not an index-wise prefix of the definition's job order. -/
theorem c1_counterexample :
    collectState envC jsC [] =
      some ([⟨10, "SUCCESS"⟩, ⟨20, "SUCCESS"⟩], 3) ∧
    ¬ (∀ k, k < ([(⟨10, "SUCCESS"⟩ : Build), ⟨20, "SUCCESS"⟩]).length →
        ([(⟨10, "SUCCESS"⟩ : Build), ⟨20, "SUCCESS"⟩]).get? k =
          (jsC.get? k).bind fun j => (envC (get_last_build_url j.url)).body) := by
  refine ⟨by decide, fun h => ?_⟩
  exact absurd (h 1 (by decide)) (by decide)

/-- C1 (amended): every state sequence rebuilt by `getState()` is an
order-preserving subsequence (a sublist) of the sequence of the jobs'
last-build records in `getJobs()` order; it is a strict or full prefix of
that sequence only when the timestamp guard drops no record. -/
theorem c1_state_subsequence (e : Engine) (now : Int)
    (defResp : Option PipelineData) (env : String → Response)
    (st : List Build) (e1 : Engine) (n : Nat)
    (js : List Job) (e2 : Engine) (n1 : Nat)
    (hstale : is_state_stale e now = true)
    (hstate : state e now defResp env = some (st, e1, n))
    (hjobs : jobs e defResp = some (js, e2, n1)) :
    st.Sublist (js.filterMap fun j => (env (get_last_build_url j.url)).body) := by
  unfold state at hstate
  rw [if_neg (by simp [hstale])] at hstate
  simp only [hjobs] at hstate
  cases hrec : collectState env js [] with
  | none => simp only [hrec] at hstate; exact Option.noConfusion hstate
  | some p =>
    obtain ⟨st2, n2⟩ := p
    simp only [hrec] at hstate
    simp at hstate
    obtain ⟨h1, -, -⟩ := hstate
    obtain ⟨t, ht, hsub⟩ := collectState_extends env js [] st2 n2 hrec
    simp at ht
    subst ht
    rw [← h1]
    exact hsub

/-- C1 (witness for the amended theorem): the rebuilt state 10, 20 is a
sublist of the three fetched records 10, 5, 20. -/
theorem c1_witness :
    ([(⟨10, "SUCCESS"⟩ : Build), ⟨20, "SUCCESS"⟩]).Sublist
      (jsC.filterMap fun j => (envC (get_last_build_url j.url)).body) := by
  have hstate : state eC1 0 none envC =
      some ([⟨10, "SUCCESS"⟩, ⟨20, "SUCCESS"⟩], eC1r, 3) := by decide
  have hjobs : jobs eC1 none = some (jsC, eC1, 0) := by decide
  exact c1_state_subsequence eC1 0 none envC _ _ _ jsC _ _ (by decide) hstate hjobs

/-! ### C3: the state cache inside its TTL -/

/-- C3 (counterexample): an instance whose last rebuild cached an empty
state is stale immediately (`not self._state`), so a `getState()` call zero
seconds later — far below the 10-second TTL — rebuilds and issues one GET
rather than zero network calls. -/
theorem c3_counterexample :
    ((0 : Int) - eC3.state_last_updated < eC3.max_state_cache) ∧
    (state eC3 0 none env404).map (fun p => p.2.2) = some 1 := by decide

/-- C3 (amended): when the cached state is nonempty and strictly less than
the TTL has elapsed since the last fetch, `getState()` returns the identical
cached sequence, leaves the instance unchanged and performs zero network
calls; an empty cached state forces a rebuild regardless of the TTL. -/
theorem c3_cached_state (e : Engine) (now : Int) (defResp : Option PipelineData)
    (env : String → Response)
    (hne : e._state ≠ [])
    (hd : now - e.state_last_updated < e.max_state_cache) :
    state e now defResp env = some (e._state, e, 0) := by
  have hstale : is_state_stale e now = false := by
    unfold is_state_stale
    rw [Bool.or_eq_false_iff]
    refine ⟨?_, ?_⟩
    · simpa using hne
    · simpa using not_lt.mpr (le_of_lt hd)
  unfold state
  rw [if_pos hstale]

/-- C3 (witness): a one-entry cached state fetched at time 0 is returned as
is at time 0 with a 10-second TTL and zero GETs. -/
theorem c3_witness :
    state eC3s 0 none env404 = some (eC3s._state, eC3s, 0) :=
  c3_cached_state eC3s 0 none env404 (by decide) (by decide)

/-! ### C9: the pipeline-definition cache -/

/-- C9 (counterexample): a definition GET whose JSON parses to the empty
dict populates the cache without error, yet the cache stays falsy, so the
very next `getPipelineDefinition()` call issues the definition GET again
(one network call, not zero). -/
theorem c9_counterexample :
    pipeline e9 (some []) = some ([], e9, 1) ∧
    (pipeline e9 (some [])).bind (fun p => pipeline p.2.1 (some [])) =
      some ([], e9, 1) := by decide

/-- C9 (amended): once a `getPipelineDefinition()` call has returned with
the cache holding a nonempty structure, every later call returns that same
structure with zero network calls; only an empty (or never populated) cache
makes a call retry the fetch. -/
theorem c9_definition_cached (e : Engine) (defResp : Option PipelineData)
    (d : PipelineData) (e1 : Engine) (n : Nat)
    (h : pipeline e defResp = some (d, e1, n)) (hd : d ≠ []) :
    ∀ defResp2, pipeline e1 defResp2 = some (d, e1, 0) := by
  intro r2
  have he1 : e1._pipeline = d := by
    unfold pipeline at h
    by_cases hp : e._pipeline.isEmpty
    · rw [if_pos hp] at h
      cases defResp with
      | none => exact absurd h (by simp)
      | some d2 =>
        simp at h
        obtain ⟨h1, h2, -⟩ := h
        rw [← h2, h1]
    · rw [if_neg hp] at h
      simp at h
      obtain ⟨h1, h2, -⟩ := h
      rw [← h2, ← h1]
  have hne : ¬ (e1._pipeline.isEmpty = true) := by
    rw [List.isEmpty_iff, he1]
    exact hd
  unfold pipeline
  rw [if_neg hne, he1]

/-- C9 (witness): after a first call fetches and caches a nonempty
definition, a second call returns it with zero GETs. -/
theorem c9_witness :
    pipeline e9p none = some ([(("jobs"), [⟨"a"⟩])], e9p, 0) := by
  have h : pipeline e9 (some [(("jobs"), [⟨"a"⟩])]) =
      some ([(("jobs"), [⟨"a"⟩])], e9p, 1) := by decide
  exact c9_definition_cached e9 (some [(("jobs"), [⟨"a"⟩])]) _ _ _ h
    (by decide) none

/-! ### C4: monotone timestamps and the drop rule -/

/-- C4: every state sequence `getState()` returns has adjacent timestamps in
nondecreasing order — returning a sorted cache keeps it sorted, the initial
cache is (vacuously) sorted, and a rebuild from the empty accumulator is
sorted — and a fetched record older than the last accumulated entry is
dropped without being appended while the loop continues with the next job,
only the request count growing. -/
theorem c4_monotonic_timestamps :
    (∀ (e : Engine) (now : Int) (defResp : Option PipelineData)
        (env : String → Response) (st : List Build) (e1 : Engine) (n : Nat),
      e._state.Chain' (fun x y => x.timestamp ≤ y.timestamp) →
      state e now defResp env = some (st, e1, n) →
      st.Chain' (fun x y => x.timestamp ≤ y.timestamp) ∧
        e1._state.Chain' fun x y => x.timestamp ≤ y.timestamp) ∧
    (∀ (ttl past : Int),
      (initEngine ttl past)._state.Chain' fun x y => x.timestamp ≤ y.timestamp) ∧
    (∀ (env : String → Response) (j : Job) (js : List Job) (acc : List Build)
        (b : Build),
      ¬ stopStatus env j →
      (env (get_last_build_url j.url)).body = some b →
      b.timestamp < last_job_time acc →
      collectState env (j :: js) acc =
        (collectState env js acc).map fun p => (p.1, p.2 + 1)) := by
  refine ⟨?_, ?_, ?_⟩
  · intro e now defResp env st e1 n hc hstate
    unfold state at hstate
    by_cases hstale : is_state_stale e now = false
    · rw [if_pos hstale] at hstate
      simp at hstate
      obtain ⟨h1, h2, -⟩ := hstate
      exact ⟨h1 ▸ hc, h2 ▸ hc⟩
    · rw [if_neg hstale] at hstate
      cases hjobs : jobs e defResp with
      | none => simp only [hjobs] at hstate; exact Option.noConfusion hstate
      | some q =>
        obtain ⟨js, e2, n1⟩ := q
        simp only [hjobs] at hstate
        cases hrec : collectState env js [] with
        | none => simp only [hrec] at hstate; exact Option.noConfusion hstate
        | some p =>
          obtain ⟨st2, n2⟩ := p
          simp only [hrec] at hstate
          simp at hstate
          obtain ⟨h1, h2, -⟩ := hstate
          have hchain := collectState_chain env js [] st2 n2 (by simp) hrec
          refine ⟨h1 ▸ hchain, ?_⟩
          rw [← h2]
          simpa using hchain
  · intro ttl past
    simp [initEngine]
  · intro env j js acc b hs hb hlt
    exact collectState_drop env j js acc b hs hb hlt

/-- C4 (witness): the rebuild of `eC1` against responses 10, 5, 20 returns
the sorted sequence 10, 20. -/
theorem c4_witness :
    ([(⟨10, "SUCCESS"⟩ : Build), ⟨20, "SUCCESS"⟩]).Chain'
      (fun x y => x.timestamp ≤ y.timestamp) := by
  have hstate : state eC1 0 none envC =
      some ([⟨10, "SUCCESS"⟩, ⟨20, "SUCCESS"⟩], eC1r, 3) := by decide
  exact (c4_monotonic_timestamps.1 eC1 0 none envC _ _ _ (by simp [eC1])
    hstate).1

/-! ### C5: bound and truncation of the rebuilt state -/

/-- C5: a state rebuild returns at most one record per job, and when the
first out-of-range status sits at job index `i` — all earlier jobs
answering in range with parseable bodies — the returned state is exactly
the state collected from the first `i` jobs, built only from those jobs'
records, however valid the later jobs' data may be. -/
theorem c5_bound_and_truncation (env : String → Response) (js : List Job)
    (st : List Build) (n : Nat)
    (h : collectState env js [] = some (st, n)) :
    st.length ≤ js.length ∧
    ∀ (i : Nat) (ji : Job), js.get? i = some ji → stopStatus env ji →
      (∀ jk ∈ js.take i, ¬ stopStatus env jk ∧
        ((env (get_last_build_url jk.url)).body).isSome) →
      collectState env (js.take i) [] = some (st, i) ∧
        st.Sublist ((js.take i).filterMap
          fun j => (env (get_last_build_url j.url)).body) := by
  constructor
  · obtain ⟨t, ht, hsub⟩ := collectState_extends env js [] st n h
    simp at ht
    subst ht
    exact le_trans hsub.length_le (List.length_filterMap_le _ _)
  · intro i ji hget hstop hgood
    obtain ⟨st0, h1, h2⟩ := collectState_firstBad env i js [] ji hget hstop hgood
    obtain ⟨hst, -⟩ : st = st0 ∧ n = i + 1 := by
      rw [h] at h2
      simpa using h2
    subst hst
    refine ⟨h1, ?_⟩
    obtain ⟨t, ht, hsub⟩ := collectState_extends env (js.take i) [] st i h1
    simp at ht
    subst ht
    exact hsub

/-- C5 (witness): with the second job answering 404, the rebuild keeps one
record out of three jobs. -/
theorem c5_witness :
    ([(⟨10, "SUCCESS"⟩ : Build)]).length ≤ jsC.length := by
  have h : collectState envW jsC [] = some ([⟨10, "SUCCESS"⟩], 2) := by decide
  exact (c5_bound_and_truncation envW jsC _ _ h).1

/-! ### C6: an out-of-range status stops the loop without error -/

/-- C6: when the job at index `i` answers with a status outside [200, 400)
and every earlier job answers in range with a parseable body, the rebuild
loop stops at `i`: it raises no exception, issues exactly `i + 1` requests —
so the jobs after `i` are never inspected this cycle — and returns the same
records as inspecting only the first `i` jobs. -/
theorem c6_stop_signal (env : String → Response) (js : List Job)
    (acc : List Build) (i : Nat) (ji : Job)
    (hget : js.get? i = some ji)
    (hstop : stopStatus env ji)
    (hgood : ∀ jk ∈ js.take i, ¬ stopStatus env jk ∧
      ((env (get_last_build_url jk.url)).body).isSome) :
    ∃ st, collectState env js acc = some (st, i + 1) ∧
      collectState env (js.take i) acc = some (st, i) := by
  obtain ⟨st, h1, h2⟩ := collectState_firstBad env i js acc ji hget hstop hgood
  exact ⟨st, h2, h1⟩

/-- C6 (witness): with job b answering 404 at index 1, the loop answers
after two requests with the same record as inspecting job a alone, and no
exception. -/
theorem c6_witness :
    ∃ st, collectState envW jsC [] = some (st, 2) ∧
      collectState envW (jsC.take 1) [] = some (st, 1) :=
  c6_stop_signal envW jsC [] 1 ⟨"b"⟩ (by decide) (by decide) (by decide)

/-! ### C2: the completeness predicate -/

/-- C2: `isComplete()` returns true exactly when the state and job lists
have equal length and the last state entry's result is the literal SUCCESS;
a length mismatch returns false, and so does a non-SUCCESS terminal result.
(With both lists empty the code raises `IndexError` instead of returning —
it then neither returns true nor has a terminal result.) -/
theorem c2_is_complete (jobsL : List Job) (stateL : List Build) :
    (is_complete jobsL stateL = some true ↔
      stateL.length = jobsL.length ∧
        ∃ b, stateL.getLast? = some b ∧ b.result = "SUCCESS") ∧
    (stateL.length ≠ jobsL.length → is_complete jobsL stateL = some false) ∧
    (∀ b, stateL.getLast? = some b → b.result ≠ "SUCCESS" →
      is_complete jobsL stateL = some false) := by
  refine ⟨⟨?_, ?_⟩, ?_, ?_⟩
  · intro h
    unfold is_complete at h
    by_cases hlen : stateL.length ≠ jobsL.length
    · rw [if_pos hlen] at h
      exact absurd h (by simp)
    · rw [if_neg hlen] at h
      push_neg at hlen
      cases hgl : stateL.getLast? with
      | none => simp only [hgl] at h; exact Option.noConfusion h
      | some b =>
        simp only [hgl] at h
        by_cases hres : b.result ≠ "SUCCESS"
        · rw [if_pos hres] at h
          exact absurd h (by simp)
        · push_neg at hres
          exact ⟨hlen, b, rfl, hres⟩
  · rintro ⟨hlen, b, hgl, hres⟩
    unfold is_complete
    rw [if_neg (not_ne_iff.mpr hlen)]
    simp only [hgl]
    rw [if_neg (by simp [hres])]
  · intro hne
    unfold is_complete
    rw [if_pos hne]
  · intro b hgl hres
    unfold is_complete
    by_cases hlen : stateL.length ≠ jobsL.length
    · rw [if_pos hlen]
    · rw [if_neg hlen]
      simp only [hgl]
      rw [if_pos hres]

/-- C2 (witness): two jobs with two SUCCESS records are complete; two jobs
with one record are not. -/
theorem c2_witness :
    is_complete [⟨"a"⟩, ⟨"b"⟩] [⟨1, "SUCCESS"⟩, ⟨2, "SUCCESS"⟩] = some true ∧
    is_complete [⟨"a"⟩, ⟨"b"⟩] [⟨1, "SUCCESS"⟩] = some false := by
  constructor
  · exact (c2_is_complete [⟨"a"⟩, ⟨"b"⟩] [⟨1, "SUCCESS"⟩, ⟨2, "SUCCESS"⟩]).1.mpr
      ⟨by decide, (⟨2, "SUCCESS"⟩ : Build), by decide, by decide⟩
  · exact (c2_is_complete [⟨"a"⟩, ⟨"b"⟩] [⟨1, "SUCCESS"⟩]).2.1 (by decide)

/-! ### C7: the next step -/

/-- C7 (counterexample): with an empty job list and an empty state (a
malformed definition degrades to no jobs, and the loop then collects
nothing), the completeness check inside `nextStep()` raises `IndexError`,
so `nextStep()` fails instead of returning the `None` sentinel. -/
theorem c7_counterexample :
    next_step ([] : List Job) ([] : List Build) = none ∧
    next_step ([] : List Job) ([] : List Build) ≠ some none := by decide

/-- C7 (amended): whenever the completeness check evaluates to false (which
requires a length mismatch or a nonempty state), `nextStep()` returns the
job at index `len(state)` of the job list, and the `None` sentinel instead
of failing when that index is out of range — including an empty job list
with a nonempty state; with both lists empty the completeness check itself
raises and `nextStep()` propagates the exception. -/
theorem c7_next_step_index (jobsL : List Job) (stateL : List Build)
    (h : is_complete jobsL stateL = some false) :
    (∀ j, jobsL.get? stateL.length = some j →
      next_step jobsL stateL = some (some j)) ∧
    (jobsL.get? stateL.length = none → next_step jobsL stateL = some none) := by
  unfold next_step
  simp only [h]
  exact ⟨fun j hj => by rw [hj], fun hj => by rw [hj]⟩

/-- C7 (witness): jobs a, b, c with two state entries yield job c next; an
empty job list with one state entry yields the `None` sentinel. -/
theorem c7_witness :
    next_step jsC [⟨1, "SUCCESS"⟩, ⟨2, "SUCCESS"⟩] = some (some ⟨"c"⟩) ∧
    next_step ([] : List Job) [⟨1, "SUCCESS"⟩] = some none := by
  constructor
  · exact (c7_next_step_index jsC [⟨1, "SUCCESS"⟩, ⟨2, "SUCCESS"⟩]
      (by decide)).1 ⟨"c"⟩ (by decide)
  · exact (c7_next_step_index [] [⟨1, "SUCCESS"⟩] (by decide)).2 (by decide)

/-! ### C8: the manual trigger -/

/-- C8 (counterexample): with one job and an empty state the pipeline is not
complete, so the waiting check subscripts `latest_step` — which is `None` —
and `triggerManualStep()` raises instead of returning the "nothing
happened" sentinel. -/
theorem c8_counterexample :
    trigger_manual_step (fun _ => (0 : Nat)) [⟨"a"⟩] [] = none ∧
    trigger_manual_step (fun _ => (0 : Nat)) [⟨"a"⟩] [] ≠ some (none, 0) := by
  decide

/-- C8 (amended): when the waiting check evaluates to false — including on a
complete pipeline — `triggerManualStep()` issues zero POST requests and
returns the `None` sentinel, not an error; when it evaluates to true and
`nextStep()` yields a job, the job's build URL is POSTed once; when the
waiting check raises (empty state on an incomplete pipeline) the exception
propagates instead of the sentinel. -/
theorem c8_trigger_cases {α : Type} (post : String → α)
    (jobsL : List Job) (stateL : List Build) :
    (is_waiting_manual_trigger jobsL stateL = some false →
      trigger_manual_step post jobsL stateL = some (none, 0)) ∧
    (∀ j, is_waiting_manual_trigger jobsL stateL = some true →
      next_step jobsL stateL = some (some j) →
      trigger_manual_step post jobsL stateL =
        some (some (build_job post j), 1)) := by
  constructor
  · intro h
    unfold trigger_manual_step
    simp only [h]
  · intro j hw hn
    unfold trigger_manual_step
    simp only [hw, hn]

/-- C8 (witness): a complete one-job pipeline triggers nothing and returns
the sentinel; a two-job pipeline with its first job done POSTs the second
job's build URL once. -/
theorem c8_witness :
    trigger_manual_step (fun _ => (0 : Nat)) [⟨"a"⟩] [⟨1, "SUCCESS"⟩] =
      some (none, 0) ∧
    trigger_manual_step (fun _ => (0 : Nat)) [⟨"a"⟩, ⟨"b"⟩] [⟨1, "SUCCESS"⟩] =
      some (some (build_job (fun _ => (0 : Nat)) ⟨"b"⟩), 1) := by
  constructor
  · exact (c8_trigger_cases (fun _ => (0 : Nat)) [⟨"a"⟩] [⟨1, "SUCCESS"⟩]).1
      (by decide)
  · exact (c8_trigger_cases (fun _ => (0 : Nat)) [⟨"a"⟩, ⟨"b"⟩]
      [⟨1, "SUCCESS"⟩]).2 ⟨"b"⟩ (by decide) (by decide)

/-! ### C10: the manual trigger never builds a missing job -/

/-- C10: for a fixed job list and state with `len(state) <= len(jobs)`, a
true waiting check forces a strict length inequality, so `nextStep()`
returns an actual job — the one at index `len(state)` — and
`triggerManualStep()` POSTs that job's build URL exactly once, never
passing a missing job to `buildJob`. -/
theorem c10_trigger_safety (jobsL : List Job) (stateL : List Build)
    (hlen : stateL.length ≤ jobsL.length)
    (hw : is_waiting_manual_trigger jobsL stateL = some true) :
    stateL.length < jobsL.length ∧
    ∃ j, jobsL.get? stateL.length = some j ∧
      next_step jobsL stateL = some (some j) ∧
      ∀ (α : Type) (post : String → α),
        trigger_manual_step post jobsL stateL =
          some (some (build_job post j), 1) := by
  have hworig := hw
  unfold is_waiting_manual_trigger at hw
  cases hic : is_complete jobsL stateL with
  | none => simp only [hic] at hw; exact Option.noConfusion hw
  | some c =>
    cases c with
    | true =>
      simp only [hic] at hw
      exact Bool.noConfusion (Option.some.inj hw)
    | false =>
      simp only [hic] at hw
      cases hls : latest_step stateL with
      | none => simp only [hls] at hw; exact Option.noConfusion hw
      | some b =>
        simp only [hls] at hw
        have hres : b.result = "SUCCESS" := of_decide_eq_true (Option.some.inj hw)
        have hne : stateL.length ≠ jobsL.length := by
          intro heq
          unfold is_complete at hic
          rw [if_neg (not_ne_iff.mpr heq)] at hic
          unfold latest_step at hls
          simp only [hls] at hic
          rw [if_neg (by simp [hres])] at hic
          exact Bool.noConfusion (Option.some.inj hic)
        have hlt : stateL.length < jobsL.length := lt_of_le_of_ne hlen hne
        obtain ⟨j, hj⟩ : ∃ j, jobsL.get? stateL.length = some j :=
          ⟨jobsL.get ⟨stateL.length, hlt⟩, List.get?_eq_get hlt⟩
        have hn : next_step jobsL stateL = some (some j) := by
          unfold next_step
          simp only [hic, hj]
        refine ⟨hlt, j, hj, hn, ?_⟩
        intro α post
        unfold trigger_manual_step
        simp only [hworig, hn]

/-- C10 (witness): two jobs with one SUCCESS record are waiting, the next
step is job b, and the trigger POSTs exactly once. -/
theorem c10_witness :
    ([(⟨1, "SUCCESS"⟩ : Build)]).length < ([(⟨"a"⟩ : Job), ⟨"b"⟩]).length ∧
    ∃ j, ([(⟨"a"⟩ : Job), ⟨"b"⟩]).get? ([(⟨1, "SUCCESS"⟩ : Build)]).length =
        some j ∧
      next_step [⟨"a"⟩, ⟨"b"⟩] [⟨1, "SUCCESS"⟩] = some (some j) ∧
      ∀ (α : Type) (post : String → α),
        trigger_manual_step post [⟨"a"⟩, ⟨"b"⟩] [⟨1, "SUCCESS"⟩] =
          some (some (build_job post j), 1) :=
  c10_trigger_safety [⟨"a"⟩, ⟨"b"⟩] [⟨1, "SUCCESS"⟩] (by decide) (by decide)

end JenkinsPipeline
